import Mathlib

/-!
Verification of the amadeus repository components under src/:
S3 file reads and partition enumeration (amadeus-aws/src/file.rs), the WARC
stream driver (amadeus-commoncrawl/src/commoncrawl.rs), the fold and fork
combinator surface (amadeus-core/src/par_pipe.rs), and the in-memory parquet
page reader (amadeus-parquet/src/internal/util/test_common/page_util.rs).

Shallow embedding conventions: byte buffers are `List Nat`, machine integers
are `Nat`/`Int`, fallible results are `Except`, Rust `unwrap`/`assert!` become
an explicit panic outcome, and loops without a structural bound take a fuel
parameter (`none` means fuel exhausted, which over-approximates divergence).
-/

/-! ## S3 reads — amadeus-aws/src/file.rs, S3File::read (lines 116-143) -/

/-- Error payloads are opaque to the engine (spec section 7); an abstract
numeric code stands in for rusoto/io error values. -/
abbrev S3Err := Nat

/-- Start of the HTTP Range header built in S3File::read, file.rs line 120:
`let (start, end) = (offset, offset + buf.len())`. -/
def s3RangeStart (offset : Nat) : Nat := offset

/-- End of the HTTP Range header built in S3File::read, file.rs line 120:
`end = offset + buf.len()`. -/
def s3RangeEnd (offset bufLen : Nat) : Nat := offset + bufLen

/-- Byte indices named by the header `bytes=start-end` (file.rs line 125).
An HTTP Range request is inclusive of both endpoints, so the requested index
set is `[start, end]`, of size `end - start + 1`. -/
def s3RequestedIndices (offset bufLen : Nat) : List Nat :=
  List.range' (s3RangeStart offset) (s3RangeEnd offset bufLen + 1 - s3RangeStart offset)

/-- Body a conforming HTTP server answers for `bytes=a-b` on object `obj`:
the bytes at indices `a..=b`, with the right endpoint clamped to the object
length. -/
def httpRangeBody (obj : List Nat) (a b : Nat) : List Nat :=
  (obj.drop a).take (b + 1 - a)

/-- Outcome of S3File::read. The source signature is
`Future<Output = Result<(), IoError>>`; `err` is the Err case that signature
allows, `panic` is an `unwrap`/`assert` abort, `ok buf` is Ok(()) together
with the final contents of the caller's buffer. -/
inductive ReadOut where
  | ok (buf : List Nat)
  | panic
  | err (e : S3Err)
  deriving DecidableEq, Repr

/-- The copy loop of S3File::read (file.rs lines 130-140):
`while len - cursor.position() > 0 { read.read_buf(&mut cursor).unwrap() }`.
The body stream is a sequence of poll results; an Err poll is unwrapped
(panic, line 139); at stream end read_buf yields 0 forever so the loop spins
until fuel runs out. -/
def copyChunks (fuel : Nat) (chunks : List (Except S3Err (List Nat)))
    (acc : List Nat) (bufLen : Nat) : Option ReadOut :=
  if bufLen ≤ acc.length then some (ReadOut.ok (acc.take bufLen))
  else
    match fuel with
    | 0 => none
    | f+1 =>
      match chunks with
      | [] => copyChunks f [] acc bufLen
      | Except.error _ :: _ => some ReadOut.panic
      | Except.ok c :: rest => copyChunks f rest (acc ++ c) bufLen

/-- S3File::read (file.rs lines 116-143). The get_object request outcome is
an oracle input: `Except.error` models a failed request (unwrapped at line
129, hence panic), `Except.ok none` a response with no body (`res.body`
unwrapped at line 132, hence panic), and `Except.ok (some chunks)` a body
stream consumed by the copy loop. -/
def s3Read (req : Except S3Err (Option (List (Except S3Err (List Nat)))))
    (bufLen fuel : Nat) : Option ReadOut :=
  match req with
  | Except.error _ => some ReadOut.panic
  | Except.ok none => some ReadOut.panic
  | Except.ok (some chunks) => copyChunks fuel chunks [] bufLen

/-- True unless the outcome is the Err case of the signature. -/
def resultNotErr : Option ReadOut → Bool
  | some (ReadOut.err _) => false
  | _ => true

/-! ## S3 partition enumeration — amadeus-aws/src/file.rs,
S3Directory::partitions (lines 31-52) -/

/-- One S3 object as returned by the listing (rusoto Object: optional key and
size). -/
structure S3Object where
  key : Option String
  size : Option Int
  deriving DecidableEq, Repr

/-- S3Partition (file.rs lines 55-61): region, bucket, key, len. The region
is kept as an opaque string. -/
structure S3PartitionM where
  region : String
  bucket : String
  key : String
  len : Nat
  deriving DecidableEq, Repr

/-- Outcome of S3Directory::partitions: `Result<Vec<S3Partition>, Error>`,
plus the panic case for the `unwrap`s at file.rs lines 46-47. -/
inductive PartitionsOut where
  | ok (parts : List S3PartitionM)
  | err (e : Nat)
  | panic
  deriving DecidableEq, Repr

/-- Modelled from the spec: amadeus-core util::ResultExpand (used at file.rs
line 39, not under src/). It expands a `Result` of a sequence into a sequence
of `Result`s: every item of an Ok sequence wrapped in Ok, or the single Err.
This realises the spec's SourceEnumeration rule that a failed listing makes
`partitions()` fail as a whole. -/
def resultExpand {E α : Type} : Except E (List α) → List (Except E α)
  | Except.ok xs => xs.map Except.ok
  | Except.error e => [Except.error e]

/-- The per-object mapping of file.rs lines 41-50, driven in order by
`collect::<Result<Vec<_>, _>>()`: an Err item becomes the overall Err; an Ok
object has its key and size unwrapped (panic if absent, lines 46-47) and its
i64 size converted to u64 (panic if negative, line 47). -/
def s3PartitionsGo (region bucket : String) : List (Except Nat S3Object) → PartitionsOut
  | [] => PartitionsOut.ok []
  | Except.error e :: _ => PartitionsOut.err e
  | Except.ok obj :: rest =>
    match obj.key, obj.size with
    | some k, some sz =>
      if 0 ≤ sz then
        match s3PartitionsGo region bucket rest with
        | PartitionsOut.ok ps =>
          PartitionsOut.ok ({ region := region, bucket := bucket, key := k, len := sz.toNat } :: ps)
        | r => r
      else PartitionsOut.panic
    | _, _ => PartitionsOut.panic

/-- S3Directory::partitions (file.rs lines 31-52). The outcome of
`super::list(&client, &bucket, ...)` (not under src/) is an oracle input. -/
def s3Partitions (region bucket : String) (listing : Except Nat (List S3Object)) : PartitionsOut :=
  s3PartitionsGo region bucket (resultExpand listing)

/-- The partition the spec expects for one listed object: that object's key
and (non-negative) size. -/
def s3PartitionOfObject (region bucket : String) (o : S3Object) : S3PartitionM :=
  { region := region, bucket := bucket, key := o.key.getD "", len := (o.size.getD 0).toNat }

/-! ## WARC driver — amadeus-commoncrawl/src/commoncrawl.rs -/

/-- commoncrawl.rs line 10: `const BUF: usize = 2 << 26`. -/
def BUF : Nat := 2 <<< 26

/-- commoncrawl.rs line 11: `const CHOMP: usize = 2 << 13`. -/
def CHOMP : Nat := 2 <<< 13

/-- WARC record types distinguished by the driver's asserts (the parser crate
itself is not under src/). -/
inductive RecordType where
  | warcinfo
  | request
  | response
  | metadata
  | other
  deriving DecidableEq, Repr

/-- A parsed WARC record as the driver consumes it: type, optional ip and
target uri, and the content. The parser borrows `content` from the buffer it
was handed; `contentStart` is the index of that borrow within the buffer,
i.e. the value the pointer subtraction at commoncrawl.rs lines 99-101
computes. -/
structure WarcRecord where
  type_ : RecordType
  ipAddress : Option String
  targetUri : Option String
  content : List Nat
  contentStart : Nat
  deriving DecidableEq, Repr

/-- Result of `parser::record` on a byte slice: Ok with the length of the
remaining suffix and the record, Incomplete (need more input), or a hard
parse error (`panic!()` at commoncrawl.rs line 84). -/
inductive ParseOut where
  | ok (remLen : Nat) (rec : WarcRecord)
  | incomplete
  | error
  deriving DecidableEq, Repr

/-- Modelled from the spec: the WARC record parser (`super::parser`, not
under src/) returns records whose `content` is a sub-slice of the input
buffer it was given ("contents may be borrowed from a decoding buffer"), and
whose remainder is a suffix of that input. Rust's borrow checker guarantees
exactly this of the real nom parser. -/
def ParserWF (P : List Nat → ParseOut) : Prop :=
  ∀ b remLen rec, P b = ParseOut.ok remLen rec →
    remLen ≤ b.length
    ∧ rec.contentStart + rec.content.length ≤ b.length
    ∧ rec.content = (b.drop rec.contentStart).take rec.content.length

/-- WarcParserState (commoncrawl.rs lines 20-27). -/
inductive WState where
  | info
  | request
  | response
  | metadata
  | done
  deriving DecidableEq, Repr

/-- WarcParser (commoncrawl.rs lines 13-19): input stream, state machine
position, the internal buffer `res`, and the consumed-prefix offset. -/
structure WParser where
  input : List Nat
  state : WState
  res : List Nat
  offset : Nat
  deriving DecidableEq, Repr

/-- Webpage payload (ip, url, contents); ip and url are kept as the strings
the record carried. -/
structure WebpageM where
  ip : String
  url : String
  contents : List Nat
  deriving DecidableEq, Repr

/-- Observable outcome of one next_borrowed call: a yielded page (the parsed
record is carried alongside as ghost data for specification only), Ok(None)
at end of stream, or a panic from a failed assert/unwrap. -/
inductive WOut where
  | page (pg : WebpageM) (rec : WarcRecord)
  | eof
  | panicOut
  deriving DecidableEq, Repr

/-- Result of the inner record loop (commoncrawl.rs lines 66-115): either
`continue 'chomp` with the updated parser, or return with an outcome. -/
inductive InnerRes where
  | toChomp (w : WParser)
  | ret (o : WOut) (w : WParser)
  deriving DecidableEq, Repr

/-- The parser carried by an inner-loop result. -/
def InnerRes.wOf : InnerRes → WParser
  | InnerRes.toChomp w => w
  | InnerRes.ret _ w => w

/-- What the state-machine match (commoncrawl.rs lines 86-114) does for a
record of type `t` in state `s`: advance to a new state, yield the page
(Response case), or fail an assert / hit `unreachable!()`. -/
inductive StepRes where
  | adv (s : WState)
  | yieldPage
  | bad
  deriving DecidableEq, Repr

/-- The record-type/state discipline of commoncrawl.rs lines 86-114. -/
def warcStep : WState → RecordType → StepRes
  | WState.info, RecordType.warcinfo => StepRes.adv WState.request
  | WState.request, RecordType.request => StepRes.adv WState.response
  | WState.response, RecordType.response => StepRes.yieldPage
  | WState.metadata, RecordType.metadata => StepRes.adv WState.request
  | _, _ => StepRes.bad

/-- The inner record loop of next_borrowed (commoncrawl.rs lines 66-115).
Each iteration splices off the consumed prefix (`res.splice(..offset)`,
line 67), re-parses, and either consumes a record (advancing the state and,
for a Response, returning a Webpage borrowed from `res` via the index
computed by pointer subtraction), or asks the outer loop for more input. -/
def innerLoop (P : List Nat → ParseOut) : Nat → WParser → Option InnerRes
  | 0, _ => none
  | fuel+1, w =>
    let w1 : WParser := { w with res := w.res.drop w.offset, offset := 0 }
    if w1.res.length = 0 then some (InnerRes.toChomp w1)
    else
      match P w1.res with
      | ParseOut.incomplete => some (InnerRes.toChomp w1)
      | ParseOut.error => some (InnerRes.ret WOut.panicOut w1)
      | ParseOut.ok remLen rec =>
        -- record_len = res.len() - offset - rem.len() + 4, with offset = 0 (line 74)
        let recordLen := w1.res.length - remLen + 4
        if w1.res.length < recordLen then some (InnerRes.toChomp w1)
        else
          let w2 : WParser := { w1 with offset := recordLen }
          match warcStep w2.state rec.type_ with
          | StepRes.adv s => innerLoop P fuel { w2 with state := s }
          | StepRes.bad => some (InnerRes.ret WOut.panicOut w2)
          | StepRes.yieldPage =>
            let w3 : WParser := { w2 with state := WState.metadata }
            -- start = content ptr - buffer ptr = contentStart; end = start + content.len()
            if rec.contentStart + rec.content.length ≤ w3.res.length then
              match rec.ipAddress, rec.targetUri with
              | some ip, some uri =>
                some (InnerRes.ret
                  (WOut.page
                    { ip := ip, url := uri,
                      contents := (w3.res.drop rec.contentStart).take rec.content.length }
                    rec)
                  w3)
              | _, _ => some (InnerRes.ret WOut.panicOut w3)
            else some (InnerRes.ret WOut.panicOut w3)

/-- The outer 'chomp loop of next_borrowed (commoncrawl.rs lines 46-116):
assert the buffer is under BUF, read up to `min(CHOMP, BUF - res.len())`
bytes from the input, detect end of stream (accepted only in the Request
state, line 61), and run the inner record loop. -/
def chompLoop (P : List Nat → ParseOut) : Nat → WParser → Option (WOut × WParser)
  | 0, _ => none
  | fuel+1, w =>
    if BUF ≤ w.res.length then some (WOut.panicOut, w)
    else
      let tk := min CHOMP (BUF - w.res.length)
      let n := min tk w.input.length
      let w1 : WParser := { w with res := w.res ++ w.input.take tk, input := w.input.drop tk }
      if n = 0 ∧ w1.offset = w1.res.length then
        if w1.state = WState.request then some (WOut.eof, { w1 with state := WState.done })
        else some (WOut.panicOut, w1)
      else
        match innerLoop P fuel w1 with
        | none => none
        | some (InnerRes.toChomp w2) => chompLoop P fuel w2
        | some (InnerRes.ret o w2) => some (o, w2)

/-- WarcParser::next_borrowed (commoncrawl.rs lines 42-117): in the Done
state return Ok(None) immediately without touching the input; otherwise run
the chomp loop. -/
def nextBorrowed (P : List Nat → ParseOut) (fuel : Nat) (w : WParser) :
    Option (WOut × WParser) :=
  if w.state = WState.done then some (WOut.eof, w) else chompLoop P fuel w

/-- Modelled from the spec: Webpage::to_owned (amadeus-types, not under
src/) converts a borrowed webpage into an owned `Webpage<'static>` with the
same ip, url and contents bytes ("boundary items crossing worker boundaries
must be owned"). Ownership is a memory notion; at the value level the
conversion preserves every field. -/
def webpageToOwned (pg : WebpageM) : WebpageM :=
  { ip := pg.ip, url := pg.url, contents := pg.contents }

/-- The owned-page outcome corresponding to a borrowed outcome. -/
def ownOut : WOut → WOut
  | WOut.page pg rec => WOut.page (webpageToOwned pg) rec
  | o => o

/-- Iterator::next for WarcParser (commoncrawl.rs lines 119-129):
`next_borrowed().transpose().map(|x| x.map(|x| x.to_owned()))` — the same
call, with a yielded page converted to owned. -/
def warcNext (P : List Nat → ParseOut) (fuel : Nat) (w : WParser) :
    Option (WOut × WParser) :=
  match nextBorrowed P fuel w with
  | some (WOut.page pg rec, w') => some (WOut.page (webpageToOwned pg) rec, w')
  | r => r

/-- One legal edge of the WARC state progression
Info→Request→Response→Metadata→Request→…, with Request→Done at end of
stream. -/
def progression : WState → WState → Bool
  | WState.info, WState.request => true
  | WState.request, WState.response => true
  | WState.response, WState.metadata => true
  | WState.metadata, WState.request => true
  | WState.request, WState.done => true
  | _, _ => false

/-- Reachability along the legal progression edges. -/
def reaches (a b : WState) : Prop :=
  Relation.ReflTransGen (fun x y => progression x y = true) a b

/-! ## Fold and fork combinators — amadeus-core/src/par_pipe.rs -/

/-- Modelled from the spec: the Fold sink's ReduceA phase (par_sink, not
under src/): per-item accumulation applies the operator to the accumulator
and `Either::Left(item)`; `Sum Item B` embeds Rust `Either<Item, B>`. The
operator type `B → Sum Item B → B` is the src signature
`F: FnMut(B, Either<Self::Item, B>) -> B` (par_pipe.rs line 112). -/
def foldReduceA {Item B : Type} (identity : Unit → B) (op : B → Sum Item B → B)
    (items : List Item) : B :=
  items.foldl (fun acc x => op acc (Sum.inl x)) (identity ())

/-- Modelled from the spec: the Fold sink's ReduceC phase (par_sink, not
under src/): merging a per-partition partial result applies the operator to
the accumulator and `Either::Right(partial)` ("fold with Either::Right
branch"). -/
def foldReduceC {Item B : Type} (identity : Unit → B) (op : B → Sum Item B → B)
    (partials : List B) : B :=
  partials.foldl (fun acc b => op acc (Sum.inr b)) (identity ())

/-- The two-phase run of the Fold sink over a partitioned input. -/
def foldRun {Item B : Type} (identity : Unit → B) (op : B → Sum Item B → B)
    (parts : List (List Item)) : B :=
  foldReduceC identity op (parts.map (foldReduceA identity op))

/-- Modelled from the spec: the Fork sink's forwarding (par_sink::Fork, not
under src/): "each item is forwarded to A by value and to B by shared
read-only reference". The src trait bounds (par_pipe.rs lines 92-99) require
`A: ParallelSink<Self::Item>` and `B: for<'a> ParallelSink<&'a Self::Item>`;
the shared reference is embedded as the item value itself, which the second
sink can read but not mutate or take over. -/
def forkRun {SA SB Item : Type} (fA : SA → Item → SA) (fB : SB → Item → SB)
    (sa : SA) (sb : SB) (items : List Item) : SA × SB :=
  items.foldl (fun p x => (fA p.1 x, fB p.2 x)) (sa, sb)

/-! ## In-memory page reader — amadeus-parquet page_util.rs (lines 154-170) -/

/-- The parquet error type; never constructed by InMemoryPageReader, kept
opaque. -/
abbrev ParquetError := String

/-- InMemoryPageReader (page_util.rs lines 154-164): the boxed iterator over
the constructed pages, represented by the list of pages not yet yielded. -/
structure InMemoryPageReader (Page : Type) where
  pages : List Page

/-- InMemoryPageReader::new (page_util.rs lines 158-164). -/
def InMemoryPageReader.new {Page : Type} (pages : List Page) : InMemoryPageReader Page :=
  { pages := pages }

/-- PageReader::get_next_page for InMemoryPageReader (page_util.rs lines
166-170): `Ok(self.pages.next())`, paired with the advanced reader. -/
def get_next_page {Page : Type} (r : InMemoryPageReader Page) :
    Except ParquetError (Option Page) × InMemoryPageReader Page :=
  match r.pages with
  | [] => (Except.ok none, { pages := [] })
  | p :: rest => (Except.ok (some p), { pages := rest })

/-- The reader state after `k` successive get_next_page calls. -/
def readerAfter {Page : Type} (r : InMemoryPageReader Page) : Nat → InMemoryPageReader Page
  | 0 => r
  | k+1 => readerAfter (get_next_page r).2 k

/-! ## Concrete witness data -/

/-- A 7-byte buffer holding one complete record for the witness parser:
3 content-ish bytes followed by the 4-byte record trailer. -/
def warcInput : List Nat := [1, 2, 3, 13, 10, 13, 10]

/-- The record the witness parser returns on `warcInput`: a Response record
whose content is the sub-slice `[2, 3]` starting at index 1. -/
def recW : WarcRecord :=
  { type_ := RecordType.response, ipAddress := some "1.2.3.4",
    targetUri := some "http://x/", content := [2, 3], contentStart := 1 }

/-- A concrete record parser for witnesses: recognises exactly `warcInput`
(with a 4-byte remainder) and rejects everything else. -/
def Pwit : List Nat → ParseOut := fun b =>
  if b = warcInput then ParseOut.ok 4 recW else ParseOut.error

/-- A parser mid-stream, in the Response state with one full record buffered
and the input exhausted. -/
def w0 : WParser := { input := [], state := WState.response, res := warcInput, offset := 0 }

/-- The page next_borrowed yields from `w0` under `Pwit`. -/
def pgW : WebpageM := { ip := "1.2.3.4", url := "http://x/", contents := [2, 3] }

/-- The parser state after that yield: record consumed, state Metadata. -/
def w1W : WParser := { input := [], state := WState.metadata, res := warcInput, offset := 7 }

/-- Two listed objects for the partitions witness. -/
def objsW : List S3Object := [{ key := some "k1", size := some 3 }, { key := some "k2", size := some 0 }]

/-! ## Helper lemmas -/

theorem copyChunks_not_err (fuel : Nat) :
    ∀ chunks acc bufLen, resultNotErr (copyChunks fuel chunks acc bufLen) = true := by
  induction fuel with
  | zero =>
    intro chunks acc bufLen
    rw [copyChunks.eq_def]
    split
    · rfl
    · rfl
  | succ f ih =>
    intro chunks acc bufLen
    rw [copyChunks.eq_def]
    split
    · rfl
    · match chunks with
      | [] => exact ih [] acc bufLen
      | Except.error e :: rest => rfl
      | Except.ok c :: rest => exact ih rest (acc ++ c) bufLen

theorem forkRun_eq {SA SB Item : Type} (fA : SA → Item → SA) (fB : SB → Item → SB) :
    ∀ (items : List Item) (sa : SA) (sb : SB),
      forkRun fA fB sa sb items = (items.foldl fA sa, items.foldl fB sb) := by
  intro items
  induction items with
  | nil => intro sa sb; rfl
  | cons x rest ih =>
    intro sa sb
    show forkRun fA fB (fA sa x) (fB sb x) rest = _
    rw [ih]
    rfl

theorem s3PartitionsGo_ok (region bucket : String) :
    ∀ objs : List S3Object,
      (∀ o ∈ objs, o.key.isSome ∧ o.size.isSome ∧ 0 ≤ o.size.getD 0) →
      s3PartitionsGo region bucket (objs.map Except.ok)
        = PartitionsOut.ok (objs.map (s3PartitionOfObject region bucket)) := by
  intro objs
  induction objs with
  | nil => intro _; rfl
  | cons o os ih =>
    intro hwf
    obtain ⟨hk, hs, hnn⟩ := hwf o (by simp)
    obtain ⟨k, hk⟩ := Option.isSome_iff_exists.mp hk
    obtain ⟨sz, hs⟩ := Option.isSome_iff_exists.mp hs
    have ih2 := ih (fun o2 ho2 => hwf o2 (by simp [ho2]))
    rw [hs, Option.getD_some] at hnn
    simp only [List.map_cons, s3PartitionsGo, hk, hs, if_pos hnn, ih2,
      s3PartitionOfObject, Option.getD_some]

theorem readerAfter_mk {Page : Type} :
    ∀ (k : Nat) (l : List Page),
      readerAfter (InMemoryPageReader.mk l) k = InMemoryPageReader.mk (l.drop k) := by
  intro k
  induction k with
  | zero => intro l; rfl
  | succ k2 ih =>
    intro l
    match l with
    | [] =>
      show readerAfter (get_next_page (InMemoryPageReader.mk [])).2 k2 = _
      rw [show (get_next_page (InMemoryPageReader.mk ([] : List Page))).2
            = InMemoryPageReader.mk [] from rfl, ih]
      simp
    | p :: rest =>
      show readerAfter (get_next_page (InMemoryPageReader.mk (p :: rest))).2 k2 = _
      rw [show (get_next_page (InMemoryPageReader.mk (p :: rest))).2
            = InMemoryPageReader.mk rest from rfl, ih]
      rfl

theorem drop_head_eq {α : Type} : ∀ (n : Nat) (l : List α), (l.drop n).head? = l[n]? := by
  intro n
  induction n with
  | zero =>
    intro l
    cases l with
    | nil => rfl
    | cons a t => simp
  | succ n2 ih =>
    intro l
    cases l with
    | nil => rfl
    | cons a t =>
      show (t.drop n2).head? = _
      rw [ih]
      simp

theorem warcStep_adv {a : WState} {t : RecordType} {s : WState}
    (h : warcStep a t = StepRes.adv s) : progression a s = true := by
  cases a <;> cases t <;> simp only [warcStep] at h <;> try cases h
  all_goals rfl

theorem warcStep_yield {a : WState} {t : RecordType}
    (h : warcStep a t = StepRes.yieldPage) :
    a = WState.response ∧ t = RecordType.response := by
  cases a <;> cases t <;> simp only [warcStep] at h <;> try cases h
  all_goals exact ⟨rfl, rfl⟩

theorem reaches_trans {a b c : WState} (h1 : reaches a b) (h2 : reaches b c) :
    reaches a c :=
  Relation.ReflTransGen.trans h1 h2

theorem reaches_single {a b : WState} (h : progression a b = true) : reaches a b :=
  Relation.ReflTransGen.single h

theorem innerLoop_res_le (P : List Nat → ParseOut) :
    ∀ fuel w r, innerLoop P fuel w = some r → r.wOf.res.length ≤ w.res.length := by
  intro fuel
  induction fuel with
  | zero => intro w r h; exact absurd h (by simp [innerLoop])
  | succ f ih =>
    intro w r h
    have hdrop : (w.res.drop w.offset).length ≤ w.res.length := by
      simp [List.length_drop]
    simp only [innerLoop] at h
    split at h
    · cases h; exact hdrop
    · split at h
      · cases h; exact hdrop
      · cases h; exact hdrop
      · split at h
        · cases h; exact hdrop
        · split at h
          · exact le_trans (ih _ _ h) hdrop
          · cases h; exact hdrop
          · split at h
            · split at h
              · cases h; exact hdrop
              · cases h; exact hdrop
            · cases h; exact hdrop

theorem innerLoop_state (P : List Nat → ParseOut) :
    ∀ fuel w r, innerLoop P fuel w = some r → reaches w.state r.wOf.state := by
  intro fuel
  induction fuel with
  | zero => intro w r h; exact absurd h (by simp [innerLoop])
  | succ f ih =>
    intro w r h
    simp only [innerLoop] at h
    split at h
    · cases h; exact Relation.ReflTransGen.refl
    · split at h
      · cases h; exact Relation.ReflTransGen.refl
      · cases h; exact Relation.ReflTransGen.refl
      · split at h
        · cases h; exact Relation.ReflTransGen.refl
        · rename_i hstep
          split at h
          · rename_i s hadv
            exact reaches_trans (reaches_single (warcStep_adv hadv)) (ih _ _ h)
          · cases h; exact Relation.ReflTransGen.refl
          · rename_i hyld
            obtain ⟨hresp, _⟩ := warcStep_yield hyld
            split at h
            · split at h
              · cases h
                exact hresp ▸ reaches_single (by rfl)
              · cases h
                exact hresp ▸ reaches_single (by rfl)
            · cases h
              exact hresp ▸ reaches_single (by rfl)

theorem innerLoop_no_eof (P : List Nat → ParseOut) :
    ∀ fuel w w2, innerLoop P fuel w = some (InnerRes.ret WOut.eof w2) → False := by
  intro fuel
  induction fuel with
  | zero => intro w w2 h; exact absurd h (by simp [innerLoop])
  | succ f ih =>
    intro w w2 h
    simp only [innerLoop] at h
    split at h
    · exact absurd h (by simp)
    · split at h
      · exact absurd h (by simp)
      · exact absurd h (by simp)
      · split at h
        · exact absurd h (by simp)
        · split at h
          · exact ih _ _ h
          · exact absurd h (by simp)
          · split at h
            · split at h
              · exact absurd h (by simp)
              · exact absurd h (by simp)
            · exact absurd h (by simp)

theorem innerLoop_page (P : List Nat → ParseOut) (hwf : ParserWF P) :
    ∀ fuel w pg rec w2, innerLoop P fuel w = some (InnerRes.ret (WOut.page pg rec) w2) →
      pg.contents = rec.content
      ∧ rec.type_ = RecordType.response ∧ w2.state = WState.metadata := by
  intro fuel
  induction fuel with
  | zero => intro w pg rec w2 h; exact absurd h (by simp [innerLoop])
  | succ f ih =>
    intro w pg rec w2 h
    simp only [innerLoop] at h
    split at h
    · exact absurd h (by simp)
    · split at h
      · exact absurd h (by simp)
      · exact absurd h (by simp)
      · rename_i remLen rec2 hparse
        split at h
        · exact absurd h (by simp)
        · split at h
          · exact ih _ _ _ _ h
          · exact absurd h (by simp)
          · rename_i hyld
            obtain ⟨-, htype⟩ := warcStep_yield hyld
            split at h
            · split at h
              · rename_i ip uri hip huri
                simp only [Option.some.injEq, InnerRes.ret.injEq, WOut.page.injEq] at h
                obtain ⟨⟨hpg, hrec⟩, hw2⟩ := h
                subst hrec
                refine ⟨?_, htype, by rw [← hw2]⟩
                rw [← hpg]
                exact ((hwf _ _ _ hparse).2.2).symm
              · exact absurd h (by simp)
            · exact absurd h (by simp)

theorem innerLoop_page_meta (P : List Nat → ParseOut) :
    ∀ fuel w pg rec w2, innerLoop P fuel w = some (InnerRes.ret (WOut.page pg rec) w2) →
      rec.type_ = RecordType.response ∧ w2.state = WState.metadata := by
  intro fuel
  induction fuel with
  | zero => intro w pg rec w2 h; exact absurd h (by simp [innerLoop])
  | succ f ih =>
    intro w pg rec w2 h
    simp only [innerLoop] at h
    split at h
    · exact absurd h (by simp)
    · split at h
      · exact absurd h (by simp)
      · exact absurd h (by simp)
      · split at h
        · exact absurd h (by simp)
        · split at h
          · exact ih _ _ _ _ h
          · exact absurd h (by simp)
          · rename_i hyld
            obtain ⟨-, htype⟩ := warcStep_yield hyld
            split at h
            · split at h
              · simp only [Option.some.injEq, InnerRes.ret.injEq, WOut.page.injEq] at h
                obtain ⟨⟨-, hrec⟩, hw2⟩ := h
                subst hrec
                exact ⟨htype, by rw [← hw2]⟩
              · exact absurd h (by simp)
            · exact absurd h (by simp)

theorem chompLoop_res_le (P : List Nat → ParseOut) :
    ∀ fuel w o w2, w.res.length ≤ BUF → chompLoop P fuel w = some (o, w2) →
      w2.res.length ≤ BUF := by
  intro fuel
  induction fuel with
  | zero => intro w o w2 _ h; exact absurd h (by simp [chompLoop])
  | succ f ih =>
    intro w o w2 hpre h
    simp only [chompLoop] at h
    split at h
    · cases h; exact hpre
    · rename_i hlt
      have hfill :
          (w.res ++ w.input.take (min CHOMP (BUF - w.res.length))).length ≤ BUF := by
        have h1 : min (min CHOMP (BUF - w.res.length)) w.input.length
            ≤ BUF - w.res.length :=
          le_trans (Nat.min_le_left _ _) (Nat.min_le_right _ _)
        simp only [List.length_append, List.length_take]
        omega
      split at h
      · split at h
        · cases h; exact hfill
        · cases h; exact hfill
      · split at h
        · exact absurd h (by simp)
        · rename_i w3 heq
          exact ih _ _ _ (le_trans (innerLoop_res_le P f _ _ heq) hfill) h
        · rename_i o2 w3 heq
          cases h
          exact le_trans (innerLoop_res_le P f _ _ heq) hfill

theorem chompLoop_state (P : List Nat → ParseOut) :
    ∀ fuel w o w2, chompLoop P fuel w = some (o, w2) →
      reaches w.state w2.state
      ∧ (o = WOut.eof → w2.state = WState.done)
      ∧ (∀ pg rec, o = WOut.page pg rec →
          rec.type_ = RecordType.response ∧ w2.state = WState.metadata) := by
  intro fuel
  induction fuel with
  | zero => intro w o w2 h; exact absurd h (by simp [chompLoop])
  | succ f ih =>
    intro w o w2 h
    simp only [chompLoop] at h
    split at h
    · cases h
      refine ⟨Relation.ReflTransGen.refl, ?_, ?_⟩
      · intro h2; cases h2
      · intro pg rec h2; cases h2
    · split at h
      · split at h
        · rename_i hreq
          cases h
          refine ⟨reaches_single ?_, fun _ => rfl, ?_⟩
          · have hw : w.state = WState.request := hreq
            rw [hw]
            rfl
          · intro pg rec h2; cases h2
        · cases h
          refine ⟨Relation.ReflTransGen.refl, ?_, ?_⟩
          · intro h2; cases h2
          · intro pg rec h2; cases h2
      · split at h
        · exact absurd h (by simp)
        · rename_i w3 heq
          have hstep := innerLoop_state P f _ _ heq
          obtain ⟨hr, he, hp⟩ := ih _ _ _ h
          exact ⟨reaches_trans hstep hr, he, hp⟩
        · rename_i o2 w3 heq
          cases h
          have hstep := innerLoop_state P f _ _ heq
          refine ⟨hstep, ?_, ?_⟩
          · intro h2
            subst h2
            exact absurd heq (by intro hc; exact innerLoop_no_eof P f _ _ hc)
          · intro pg rec h2
            subst h2
            exact innerLoop_page_meta P f _ _ _ _ heq

theorem chompLoop_page (P : List Nat → ParseOut) (hwf : ParserWF P) :
    ∀ fuel w pg rec w2, chompLoop P fuel w = some (WOut.page pg rec, w2) →
      pg.contents = rec.content := by
  intro fuel
  induction fuel with
  | zero => intro w pg rec w2 h; exact absurd h (by simp [chompLoop])
  | succ f ih =>
    intro w pg rec w2 h
    simp only [chompLoop] at h
    split at h
    · exact absurd h (by simp)
    · split at h
      · split at h
        · exact absurd h (by simp)
        · exact absurd h (by simp)
      · split at h
        · exact absurd h (by simp)
        · exact ih _ _ _ _ h
        · rename_i o2 w3 heq
          simp only [Option.some.injEq, Prod.mk.injEq] at h
          obtain ⟨ho, -⟩ := h
          subst ho
          exact (innerLoop_page P hwf f _ _ _ _ heq).1

theorem PwitWF : ParserWF Pwit := by
  intro b remLen rec h
  simp only [Pwit] at h
  split at h
  · rename_i hb
    subst hb
    injection h with h1 h2
    subst h1
    subst h2
    decide
  · cases h

theorem runPwit : nextBorrowed Pwit 2 w0 = some (WOut.page pgW recW, w1W) := by
  decide

/-! ## Claim theorems -/

/-- C1: contrary to the claim, S3File::read never resolves to Err. A failed
get_object request (file.rs line 129), a missing body (line 132), or a
failed body read (line 139) is unwrapped and panics the task; the Err case
of the signature is unreachable. -/
theorem s3_read_failure_panics :
    (∀ e bufLen fuel, s3Read (Except.error e) bufLen fuel = some ReadOut.panic)
    ∧ (∀ bufLen fuel, s3Read (Except.ok none) bufLen fuel = some ReadOut.panic)
    ∧ (∀ e rest b fuel,
        s3Read (Except.ok (some (Except.error e :: rest))) (b+1) (fuel+1)
          = some ReadOut.panic)
    ∧ (∀ req bufLen fuel, resultNotErr (s3Read req bufLen fuel) = true) := by
  refine ⟨fun e bufLen fuel => rfl, fun bufLen fuel => rfl, ?_, ?_⟩
  · intro e rest b fuel
    show copyChunks (fuel+1) (Except.error e :: rest) [] (b+1) = some ReadOut.panic
    rw [copyChunks.eq_def]
    simp
  · intro req bufLen fuel
    match req with
    | Except.error e => rfl
    | Except.ok none => rfl
    | Except.ok (some chunks) => exact copyChunks_not_err fuel chunks [] bufLen

/-- C2 counterexample: with a 1-byte object (len = 1), offset 0 and a 1-byte
buffer (so offset + buf.len() = len), the Range header requests indices
[0, 1]; index 1 is at len(), so "requesting no byte at or past len()" fails. -/
theorem s3_read_range_counterexample :
    s3RequestedIndices 0 1 = [0, 1]
    ∧ (s3RequestedIndices 0 1).all (fun i => decide (i < 1)) = false := by
  decide

/-- C2 (amended): for offset + buf.len() ≤ len, S3File::read requests the
inclusive range [offset, offset + buf.len()] — one byte beyond the target
region — and, given the server's clamped body for that range, copies into
the buffer exactly the object bytes [offset, offset + buf.len()), filling
the whole buffer. -/
theorem s3_read_success (obj : List Nat) (offset bufLen fuel : Nat)
    (h : offset + bufLen ≤ obj.length) :
    s3RangeStart offset = offset
    ∧ s3RangeEnd offset bufLen = offset + bufLen
    ∧ s3Read (Except.ok (some [Except.ok
        (httpRangeBody obj (s3RangeStart offset) (s3RangeEnd offset bufLen))]))
        bufLen (fuel + 2)
      = some (ReadOut.ok ((obj.drop offset).take bufLen))
    ∧ ((obj.drop offset).take bufLen).length = bufLen := by
  have hbody : httpRangeBody obj (s3RangeStart offset) (s3RangeEnd offset bufLen)
      = (obj.drop offset).take (bufLen + 1) := by
    rw [httpRangeBody, s3RangeStart, s3RangeEnd]
    congr 1
    omega
  refine ⟨rfl, rfl, ?_, ?_⟩
  · show copyChunks (fuel + 2) [Except.ok
        (httpRangeBody obj (s3RangeStart offset) (s3RangeEnd offset bufLen))] [] bufLen = _
    rw [hbody]
    match bufLen, h with
    | 0, _ =>
      rw [copyChunks.eq_def]
      simp
    | n+1, h =>
      rw [copyChunks.eq_def]
      have hni : ¬ (n + 1 ≤ List.length ([] : List Nat)) := by simp
      rw [if_neg hni]
      show copyChunks (fuel + 1) [] (List.nil ++ (obj.drop offset).take (n + 1 + 1)) (n+1) = _
      rw [copyChunks.eq_def]
      have hlen : n + 1 ≤ (List.nil ++ (obj.drop offset).take (n + 1 + 1)).length := by
        simp [List.length_take, List.length_drop]
        omega
      rw [if_pos hlen]
      simp [List.take_take]
  · simp [List.length_take, List.length_drop]
    omega

/-- C2 witness: the amended read theorem at object [10, 20, 30], offset 1,
buffer length 2. -/
theorem s3_read_success_witness :
    s3RangeStart 1 = 1
    ∧ s3RangeEnd 1 2 = 1 + 2
    ∧ s3Read (Except.ok (some [Except.ok
        (httpRangeBody [10, 20, 30] (s3RangeStart 1) (s3RangeEnd 1 2))])) 2 (0 + 2)
      = some (ReadOut.ok (([10, 20, 30].drop 1).take 2))
    ∧ (([10, 20, 30].drop 1).take 2).length = 2 :=
  s3_read_success [10, 20, 30] 1 2 0 (by decide)

/-- C3: every Webpage next_borrowed yields from a Response record has
contents equal to the parsed record's content bytes: the start/end offsets
obtained by pointer subtraction against the internal buffer identify exactly
the sub-slice of `res` that the parser returned as record.content. -/
theorem warc_content_offsets (P : List Nat → ParseOut) (fuel : Nat) (w : WParser)
    (pg : WebpageM) (rec : WarcRecord) (w2 : WParser) (hwf : ParserWF P)
    (h : nextBorrowed P fuel w = some (WOut.page pg rec, w2)) :
    pg.contents = rec.content := by
  rw [nextBorrowed] at h
  split at h
  · exact absurd h (by simp)
  · exact chompLoop_page P hwf fuel w pg rec w2 h

/-- C3 witness: the yielded page's contents are the record's content bytes
for a concrete run. -/
theorem warc_content_offsets_witness : pgW.contents = recW.content :=
  warc_content_offsets Pwit 2 w0 pgW recW w1W PwitWF runPwit

/-- C4: the WARC state machine only moves along the progression
Info→Request→Response→Metadata→Request, with Request→Done at end of input;
Done is terminal (a call in Done returns Ok(None) without consuming input);
an Ok(None) result always lands in Done (reachable only through Request, the
sole predecessor of Done); and a yielded page comes from a Response-typed
record, leaving the machine in Metadata. -/
theorem warc_state_progression (P : List Nat → ParseOut) (fuel : Nat) (w : WParser)
    (o : WOut) (w2 : WParser) (h : nextBorrowed P fuel w = some (o, w2)) :
    reaches w.state w2.state
    ∧ (w.state = WState.done → o = WOut.eof ∧ w2 = w)
    ∧ (o = WOut.eof → w2.state = WState.done)
    ∧ (∀ pg rec, o = WOut.page pg rec →
        rec.type_ = RecordType.response ∧ w2.state = WState.metadata) := by
  rw [nextBorrowed] at h
  split at h
  · rename_i hdone
    cases h
    refine ⟨Relation.ReflTransGen.refl, fun _ => ⟨rfl, rfl⟩, fun _ => hdone, ?_⟩
    intro pg rec h2
    cases h2
  · rename_i hnd
    obtain ⟨hr, he, hp⟩ := chompLoop_state P fuel w o w2 h
    exact ⟨hr, fun hd => absurd hd hnd, he, hp⟩

/-- C4 witness: a Response-state parser that yields a page has moved along
the legal edge Response→Metadata. -/
theorem warc_state_progression_witness : reaches WState.response WState.metadata :=
  (warc_state_progression Pwit 2 w0 (WOut.page pgW recW) w1W runPwit).1

/-- C5: the fold operator has signature B → Either Item B → B (par_pipe.rs
line 112; `Sum` embeds `Either`); per-item accumulation in ReduceA applies
it only to Either::Left(item), and per-partition merging in ReduceC only to
Either::Right(partial): the Either discrimination is part of the operator's
signature, not an ambient convention. -/
theorem fold_either_signature {Item B : Type} (identity : Unit → B)
    (op : B → Sum Item B → B) (items : List Item) (partials : List B)
    (parts : List (List Item)) :
    foldReduceA identity op items = (items.map Sum.inl).foldl op (identity ())
    ∧ foldReduceC identity op partials = (partials.map Sum.inr).foldl op (identity ())
    ∧ foldRun identity op parts
      = ((parts.map (fun part => (part.map Sum.inl).foldl op (identity ()))).map
          Sum.inr).foldl op (identity ()) := by
  have hA : foldReduceA identity op
      = fun part => (part.map Sum.inl).foldl op (identity ()) := by
    funext part
    rw [foldReduceA, List.foldl_map]
  refine ⟨?_, ?_, ?_⟩
  · rw [foldReduceA, List.foldl_map]
  · rw [foldReduceC, List.foldl_map]
  · rw [foldRun, hA, foldReduceC]
    simp [List.foldl_map, Function.comp]

/-- C6: S3Directory::partitions returns Err when the object listing fails
(so the pipeline aborts before any task runs), and otherwise returns exactly
one partition per listed object, in listing order, carrying that object's
key and length. -/
theorem s3_partitions_spec (region bucket : String) (e : Nat)
    (objs : List S3Object)
    (hwf : ∀ o ∈ objs, o.key.isSome ∧ o.size.isSome ∧ 0 ≤ o.size.getD 0) :
    s3Partitions region bucket (Except.error e) = PartitionsOut.err e
    ∧ s3Partitions region bucket (Except.ok objs)
      = PartitionsOut.ok (objs.map (s3PartitionOfObject region bucket))
    ∧ (objs.map (s3PartitionOfObject region bucket)).length = objs.length := by
  refine ⟨rfl, ?_, by simp⟩
  exact s3PartitionsGo_ok region bucket objs hwf

/-- C6 witness: a failed listing with code 7 and a successful two-object
listing. -/
theorem s3_partitions_spec_witness :
    s3Partitions "r" "b" (Except.error 7) = PartitionsOut.err 7
    ∧ s3Partitions "r" "b" (Except.ok objsW)
      = PartitionsOut.ok (objsW.map (s3PartitionOfObject "r" "b"))
    ∧ (objsW.map (s3PartitionOfObject "r" "b")).length = objsW.length :=
  s3_partitions_spec "r" "b" 7 objsW (by decide)

/-- C7: fork forwards every item to the first sink by value and to the
second sink by shared read-only reference: both sinks fold over the same
items in the same order, and the second sink's function cannot change what
the first sink receives. -/
theorem fork_by_value_and_ref {SA SB Item : Type} (fA : SA → Item → SA)
    (fB : SB → Item → SB) (sa : SA) (sb : SB) (items : List Item) :
    forkRun fA fB sa sb items = (items.foldl fA sa, items.foldl fB sb)
    ∧ ∀ fB2 : SB → Item → SB,
        (forkRun fA fB sa sb items).1 = (forkRun fA fB2 sa sb items).1 := by
  refine ⟨forkRun_eq fA fB items sa sb, ?_⟩
  intro fB2
  rw [forkRun_eq fA fB items sa sb, forkRun_eq fA fB2 items sa sb]

/-- C8: the owned-iterator interface (Iterator::next) yields exactly the
same sequence of results as next_borrowed, with each yielded page converted
to an owned Webpage with the same ip, url and contents bytes. -/
theorem warc_iterator_refines (P : List Nat → ParseOut) (fuel : Nat) (w : WParser) :
    warcNext P fuel w
      = Option.map (fun r => (ownOut r.1, r.2)) (nextBorrowed P fuel w)
    ∧ warcNext P fuel w = nextBorrowed P fuel w
    ∧ (∀ pg, (webpageToOwned pg).ip = pg.ip ∧ (webpageToOwned pg).url = pg.url
        ∧ (webpageToOwned pg).contents = pg.contents) := by
  refine ⟨?_, ?_, fun pg => ⟨rfl, rfl, rfl⟩⟩
  · cases hnb : nextBorrowed P fuel w with
    | none => simp [warcNext, hnb]
    | some pr =>
      obtain ⟨o, w2⟩ := pr
      cases o with
      | page pg rec => simp [warcNext, hnb, ownOut]
      | eof => simp [warcNext, hnb, ownOut]
      | panicOut => simp [warcNext, hnb, ownOut]
  · cases hnb : nextBorrowed P fuel w with
    | none => simp [warcNext, hnb]
    | some pr =>
      obtain ⟨o, w2⟩ := pr
      cases o with
      | page pg rec =>
        have hid : webpageToOwned pg = pg := rfl
        simp [warcNext, hnb, hid]
      | eof => simp [warcNext, hnb]
      | panicOut => simp [warcNext, hnb]

/-- C9: the internal buffer length never exceeds BUF = 2 << 26 bytes: the
bound is an invariant of next_borrowed, because each read takes at most
min(CHOMP, BUF - res.len()) bytes and the record loop only shrinks the
buffer. -/
theorem warc_buf_invariant (P : List Nat → ParseOut) (fuel : Nat) (w : WParser)
    (o : WOut) (w2 : WParser) (hpre : w.res.length ≤ BUF)
    (h : nextBorrowed P fuel w = some (o, w2)) :
    w2.res.length ≤ BUF := by
  rw [nextBorrowed] at h
  split at h
  · cases h
    exact hpre
  · exact chompLoop_res_le P fuel w o w2 hpre h

/-- C9 witness: the buffer bound holds before and after a concrete call. -/
theorem warc_buf_invariant_witness :
    w0.res.length ≤ BUF ∧ w1W.res.length ≤ BUF :=
  ⟨by decide, warc_buf_invariant Pwit 2 w0 (WOut.page pgW recW) w1W (by decide) runPwit⟩

/-- C10: get_next_page on an InMemoryPageReader built from a page vector
returns Ok(Some page) for each page in construction order, then Ok(None) on
every later call, and never returns Err. -/
theorem in_memory_page_reader_spec {Page : Type} (pages : List Page) (k : Nat) :
    (get_next_page (readerAfter (InMemoryPageReader.new pages) k)).1
      = Except.ok pages[k]? := by
  rw [show InMemoryPageReader.new pages = InMemoryPageReader.mk pages from rfl,
    readerAfter_mk, ← drop_head_eq]
  cases hd : pages.drop k with
  | nil => rfl
  | cons p t => rfl
